import Mathlib

/-!
Shallow embedding of the core of the `outline_google_chrome_move_bulk_move_documents`
browser extension (a bulk document-mover for an Outline wiki), together with
theorems settling the specification claims about it.

The embedded functions mirror, construct for construct, the JavaScript source:
  - `retryFetch` (utils.js): retry loop with timeout/backoff and 429 handling;
  - `OutlineAPI.listCollections` (outlineAPI.js): offset/limit pagination loop;
  - `flattenApiDocs`, `buildTree`, `flattenTree`, `filterTopLevelSelected`,
    `moveDocumentRecursively` (manager.js): tree flattening/rebuilding and
    recursive relocation;
  - `parseApiError`, `OutlineApiError`, and the response-handling branches of
    `createCollection` / `createDocument` / `moveDocument` / `getDocument`.

Effectful JavaScript is modelled by explicit oracles and traces:
a fetch attempt schedule is a function from the attempt index to its result,
sleeps are recorded in a delay trace, and HTTP responses are explicit records.
-/

namespace OutlineMover

/-! ### Resilient HTTP client: `retryFetch` (utils.js, lines 386-412) -/

/-- Result of one `fetchWithTimeout` attempt: either a settled HTTP response
(with its status and the parsed `Retry-After` header, if present), or a
rejection (timeout / network error) carrying the error message. -/
inductive AttemptResult : Type where
  | resp (status : Nat) (retryAfter : Option Nat)
  | fail (e : String)
deriving DecidableEq, Repr

/-- How a `retryFetch` call can finish: return a response, throw the last
error, or fall out of the `for` loop after only 429 responses — in which case
the JS function returns `undefined` (no `Response` value and no throw). -/
inductive RFOutcome : Type where
  | returned (status : Nat) (retryAfter : Option Nat)
  | threw (e : String)
  | exhausted
deriving DecidableEq, Repr

/-- The body of `retryFetch`'s `for (let attempt = 0; attempt <= maxRetries; attempt++)`
loop. `attempts` is the oracle giving each attempt's result; `remaining` is the
number of iterations the guard `attempt <= maxRetries` still allows, i.e.
`maxRetries + 1 - attempt` (made a structural argument so the model computes).
Returns the list of sleep durations performed (in order) paired with the
outcome. Note that the JS `continue` in the 429 branch still runs the loop's
`attempt++` update, so a 429 iteration consumes one unit of `remaining`. -/
def retryFetchLoop (attempts : Nat → AttemptResult) (maxRetries backoff : Nat) :
    Nat → Nat → List Nat × RFOutcome
  | _, 0 => ([], RFOutcome.exhausted)
  | attempt, remaining + 1 =>
    match attempts attempt with
    | AttemptResult.resp status retryAfter =>
      if status = 429 then
        let delay := match retryAfter with
          | some n => n * 1000
          | none => backoff * 2 ^ attempt
        let rest := retryFetchLoop attempts maxRetries backoff (attempt + 1) remaining
        (delay :: rest.1, rest.2)
      else
        ([], RFOutcome.returned status retryAfter)
    | AttemptResult.fail e =>
      if attempt = maxRetries then
        ([], RFOutcome.threw e)
      else
        let delay := backoff * 2 ^ attempt
        let rest := retryFetchLoop attempts maxRetries backoff (attempt + 1) remaining
        (delay :: rest.1, rest.2)

/-- Model of `retryFetch(url, options, maxRetries, backoff)`, with the network abstracted
into the `attempts` oracle: the loop starts at attempt 0 with `maxRetries + 1`
iterations allowed by the guard. -/
def retryFetch (attempts : Nat → AttemptResult) (maxRetries backoff : Nat) :
    List Nat × RFOutcome :=
  retryFetchLoop attempts maxRetries backoff 0 (maxRetries + 1)

/-! ### Pagination: `OutlineAPI.listCollections` (outlineAPI.js, lines 204-240) -/

/-- One page of the `collections.list` payload: `some items` when `data.data`
is an array, `none` when it is not. The oracle maps the request offset to the
payload. -/
def listCollectionsLoop (pages : Nat → Option (List α)) :
    Nat → Nat → List α → Option (List α)
  | 0, _, _ => none
  | fuel + 1, offset, acc =>
    match pages offset with
    | none => some acc
    | some page =>
      if page.length < 25 then some (acc ++ page)
      else listCollectionsLoop pages fuel (offset + 25) (acc ++ page)

/-- Model of `listCollections`: starts at offset 1 with page size 25 and accumulates
pages until a short page or a non-array payload. `fuel` bounds the number of
loop iterations the model may take; the JS loop is `while (true)`. -/
def listCollections (pages : Nat → Option (List α)) (fuel : Nat) :
    Option (List α) :=
  listCollectionsLoop pages fuel 1 []

/-! ### Document trees (manager.js) -/

/-- A document node as the manager sees it after `buildTree`: an id and the
(ordered) list of child documents. Used for `filterTopLevelSelected` and
`moveDocumentRecursively`, which walk exactly this shape. -/
inductive DTree : Type where
  | node : String → List DTree → DTree
deriving Repr

/-- The `id` field of a document node. -/
def DTree.id : DTree → String
  | DTree.node i _ => i

/-- The `children` field of a document node. -/
def DTree.children : DTree → List DTree
  | DTree.node _ cs => cs

/-- A flat document record as produced by `flattenApiDocs` (the shallow copy
without `children`), keeping the fields the tree builder reads. JS
absent/null/`""` truthiness of `parentDocumentId` is modelled by
`Option String`, with `some ""` standing for an empty-string id. -/
structure FlatDoc : Type where
  id : String
  parentDocumentId : Option String
deriving DecidableEq, Repr

/-- JS truthiness of a possibly-absent string (`undefined`/`null`/`""` are
falsy). -/
def truthy : Option String → Bool
  | none => false
  | some s => s ≠ ""

/-- A nested document from the API response: id, optional
`parentDocumentId`, and nested `children`. -/
inductive NDoc : Type where
  | mk : String → Option String → List NDoc → NDoc
deriving Repr

/-- Model of `flattenApiDocs(docs, parentDocumentId)` (manager.js lines 14-30):
depth-first flattening; a child missing a `parentDocumentId` is assigned the
one passed down (the JS guard is `if (parentDocumentId && !doc.parentDocumentId)`),
the doc is pushed without its `children`, and children are flattened under
`doc.id`. -/
def flattenApiDocs : List NDoc → Option String → List FlatDoc
  | [], _ => []
  | NDoc.mk i pid cs :: rest, parent =>
    let pid' := if truthy parent && !truthy pid then parent else pid
    FlatDoc.mk i pid' :: (flattenApiDocs cs (some i) ++ flattenApiDocs rest parent)

/-- Whether some doc in the list has the given id — the membership test the
second pass of `buildTree` performs with `map[doc.parentDocumentId]`. -/
def hasId (docs : List FlatDoc) (s : String) : Bool :=
  docs.any (fun d => d.id == s)

/-- The JS attachment test `doc.parentDocumentId && map[doc.parentDocumentId]`
of `buildTree`'s second pass: the parent id is truthy and present in the map
built from `docs`. -/
def isAttached (docs : List FlatDoc) (d : FlatDoc) : Bool :=
  match d.parentDocumentId with
  | none => false
  | some p => p ≠ "" && hasId docs p

/-- The `roots` array `buildTree(docs)` returns (manager.js lines 69-87): the
docs, in iteration order, that are not attached to a present parent. -/
def buildTreeRoots (docs : List FlatDoc) : List FlatDoc :=
  docs.filter (fun d => !isAttached docs d)

/-- The `children` array `buildTree` leaves on the doc with id `p` (assuming
ids are unique, so that `map[p]` is that doc): the docs pushed onto
`map[p].children`, in iteration order. -/
def buildTreeChildren (docs : List FlatDoc) (p : String) : List FlatDoc :=
  docs.filter (fun d => isAttached docs d && d.parentDocumentId == some p)

/-- Model of `filterTopLevelSelected(tree, selectedIds)` (manager.js lines 185-195):
push a node whose id is selected; otherwise, if it has children, recurse into
them. -/
def filterTopLevelSelected : List DTree → List String → List DTree
  | [], _ => []
  | DTree.node i cs :: rest, sel =>
    if sel.contains i then
      DTree.node i cs :: filterTopLevelSelected rest sel
    else if cs.length > 0 then
      filterTopLevelSelected cs sel ++ filterTopLevelSelected rest sel
    else
      filterTopLevelSelected rest sel

mutual

/-- Model of `moveDocumentRecursively(api, doc, destCollectionId, destParentId)`
(manager.js lines 205-213), abstracted to the sequence of
`api.moveDocument(documentId, destCollectionId, destParentId)` calls it awaits,
in order: the doc itself first, then each child subtree with the just-moved
doc's id as the new destination parent. -/
def moveDocumentRecursively : DTree → String → String → List (String × String × String)
  | DTree.node i cs, destCollectionId, destParentId =>
    (i, destCollectionId, destParentId) :: moveChildrenCalls cs destCollectionId i

/-- The `for (const child of doc.children)` loop of `moveDocumentRecursively`:
the children's move calls, concatenated in order. -/
def moveChildrenCalls : List DTree → String → String → List (String × String × String)
  | [], _, _ => []
  | c :: rest, destCollectionId, parentId =>
    moveDocumentRecursively c destCollectionId parentId ++
      moveChildrenCalls rest destCollectionId parentId

end

/-! ### Response handling (outlineAPI.js, utils.js `parseApiError`, config.js) -/

/-- An HTTP response as the API methods observe it. `contentTypeJson` models
whether the `content-type` header is present and contains `application/json`;
`jsonString` is `JSON.stringify(await response.json())` when the body parses
(`none` when `response.json()` rejects); `text` is `await response.text()`;
`data` abstracts the `data.data` payload of a successful response. -/
structure Response : Type where
  ok : Bool
  status : Nat
  contentTypeJson : Bool
  jsonString : Option String
  text : String
  data : String
deriving DecidableEq, Repr

/-- Model of `parseApiError(response, defaultErrorText)` (utils.js lines 420-435). -/
def parseApiError (r : Response) (defaultErrorText : String) : String :=
  let base := "Error (Status: " ++ toString r.status ++ ")"
  if r.contentTypeJson then
    match r.jsonString with
    | some s => base ++ " - " ++ s
    | none => base ++ " - " ++ defaultErrorText
  else if r.text ≠ "" then
    base ++ " - " ++ r.text
  else
    base ++ " - " ++ defaultErrorText

/-- Model of `OutlineApiError` (config.js lines 9-15): name, message and HTTP status. -/
structure OutlineApiError : Type where
  name : String
  message : String
  status : Nat
deriving DecidableEq, Repr

/-- The response-handling tail of `OutlineAPI.createCollection`: throw a typed
error built from `parseApiError` on a non-ok response, else return the parsed
data (`data.data.id`, abstracted into `r.data`). -/
def createCollection (r : Response) : Except OutlineApiError String :=
  if !r.ok then
    Except.error
      (OutlineApiError.mk "OutlineApiError"
        (parseApiError r "Collection creation failed") r.status)
  else Except.ok r.data

/-- The response-handling tail of `OutlineAPI.createDocument`. -/
def createDocument (r : Response) : Except OutlineApiError String :=
  if !r.ok then
    Except.error
      (OutlineApiError.mk "OutlineApiError"
        (parseApiError r "Document creation failed") r.status)
  else Except.ok r.data

/-- The response-handling tail of `OutlineAPI.moveDocument`
(outlineAPI.js lines 277-303). -/
def moveDocument (r : Response) : Except OutlineApiError String :=
  if !r.ok then
    Except.error
      (OutlineApiError.mk "OutlineApiError"
        (parseApiError r "Moving document failed") r.status)
  else Except.ok r.data

/-- The response-handling tail of `OutlineAPI.getDocument`
(outlineAPI.js lines 312-324): `null` on any non-ok response, the parsed data
otherwise. -/
def getDocument (r : Response) : Option String :=
  if !r.ok then none else some r.data

/-! ### Spec-side definitions used to state the claims -/

/-- Concatenation, in order, of the page payloads at offsets
`offset, offset + 25, offset + 50, ...` (`count` pages; a non-array payload
contributes nothing). This is the "concatenation of all pages received, in
order" of the pagination claim, with the offset incremented by the page size
each round. -/
def pagesConcat (pages : Nat → Option (List α)) (offset : Nat) : Nat → List α
  | 0 => []
  | count + 1 => (pages offset).getD [] ++ pagesConcat pages (offset + 25) count

mutual

/-- The nested-document form of an abstract tree: every node carries no
`parentDocumentId` of its own (parenthood is expressed purely by nesting),
as in a nested API response. -/
def toNested : DTree → NDoc
  | DTree.node i cs => NDoc.mk i none (toNestedF cs)

/-- Function `toNested` mapped over a forest. -/
def toNestedF : List DTree → List NDoc
  | [] => []
  | t :: rest => toNested t :: toNestedF rest

end

/-- Preorder list of the ids of a forest. -/
def preIdsF : List DTree → List String
  | [] => []
  | DTree.node i cs :: rest => i :: (preIdsF cs ++ preIdsF rest)

/-- What the flattened form of a forest should look like, per the spec: a
preorder walk in which each node is emitted with its tree parent's id (and the
roots with the id passed down from above). -/
def flatSpec : List DTree → Option String → List FlatDoc
  | [], _ => []
  | DTree.node i cs :: rest, p =>
    FlatDoc.mk i p :: (flatSpec cs (some i) ++ flatSpec rest p)

/-- Preorder search for the node with the given id. -/
def findNode (q : String) : List DTree → Option DTree
  | [] => none
  | DTree.node i cs :: rest =>
    if i = q then some (DTree.node i cs)
    else
      match findNode q cs with
      | some t => some t
      | none => findNode q rest

/-- The children of the node with id `q` in a forest (empty if absent). -/
def childrenOfId (q : String) (F : List DTree) : List DTree :=
  match findNode q F with
  | some t => t.children
  | none => []

/-- Well-definedness of the ids of a forest, as the round-trip claim assumes:
the preorder id list has no duplicates and no id is the empty string (a JS
falsy id would defeat the `parentDocumentId` truthiness checks). -/
def goodIds (F : List DTree) : Prop :=
  (preIdsF F).Nodup ∧ ∀ i ∈ preIdsF F, i ≠ ""

instance (F : List DTree) : Decidable (goodIds F) := by
  unfold goodIds; infer_instance

/-- Preorder walk of a forest recording, for every node, the ids of its
ancestors (nearest first), starting from the ambient ancestor list `anc`. -/
def preorderWithAncestors : List DTree → List String → List (DTree × List String)
  | [], _ => []
  | DTree.node i cs :: rest, anc =>
    (DTree.node i cs, anc) ::
      (preorderWithAncestors cs (i :: anc) ++ preorderWithAncestors rest anc)

/-- The selection filter as the spec words it: in preorder, exactly the nodes
whose id is selected and none of whose ancestors is selected. -/
def topLevelSelectedSpec (F : List DTree) (sel : List String) : List DTree :=
  ((preorderWithAncestors F []).filter
    (fun p => sel.contains p.1.id && p.2.all (fun a => !sel.contains a))).map
    Prod.fst

/-! ### Theorems: resilient HTTP client (claims C1, C5, C9) -/

/-- When every attempt answers 429, every loop iteration takes the rate-limit
branch: it records the computed delay and moves to the next attempt index,
until the iteration budget runs out and the loop falls through. -/
theorem retryFetchLoop_all_429 (attempts : Nat → AttemptResult)
    (maxRetries backoff : Nat) (ra : Nat → Option Nat)
    (h : ∀ k, attempts k = AttemptResult.resp 429 (ra k)) :
    ∀ remaining attempt,
      retryFetchLoop attempts maxRetries backoff attempt remaining =
        ((List.range' attempt remaining).map
          (fun k => match ra k with
            | some n => n * 1000
            | none => backoff * 2 ^ k),
         RFOutcome.exhausted) := by
  intro remaining
  induction remaining with
  | zero => intro attempt; simp [retryFetchLoop, List.range']
  | succ m ih =>
    intro attempt
    rw [retryFetchLoop, h attempt]
    simp only [List.range'_succ, List.map_cons, if_pos rfl]
    rw [ih (attempt + 1)]
    simp

/-- When every attempt up to `maxRetries` fails, each non-final iteration
records the delay `backoff * 2 ^ attempt` and retries, and the final iteration
throws its error. `d` is the distance from the current attempt to
`maxRetries`. -/
theorem retryFetchLoop_all_fail (attempts : Nat → AttemptResult)
    (maxRetries backoff : Nat) (es : Nat → String)
    (h : ∀ k, k ≤ maxRetries → attempts k = AttemptResult.fail (es k)) :
    ∀ d attempt, attempt + d = maxRetries →
      retryFetchLoop attempts maxRetries backoff attempt (d + 1) =
        ((List.range' attempt d).map (fun k => backoff * 2 ^ k),
         RFOutcome.threw (es maxRetries)) := by
  intro d
  induction d with
  | zero =>
    intro attempt ha
    have heq : attempt = maxRetries := by omega
    rw [retryFetchLoop, h attempt (by omega)]
    simp [heq, List.range']
  | succ m ih =>
    intro attempt ha
    have hne : attempt ≠ maxRetries := by omega
    rw [retryFetchLoop, h attempt (by omega)]
    simp only [if_neg hne, List.range'_succ, List.map_cons]
    rw [ih (attempt + 1) (by omega)]

/-- Claim C1 counterexample: with `maxRetries = 1` and every attempt answering
HTTP 429 with `Retry-After: 2`, `retryFetch` performs exactly two attempts
(recording a 2000 ms delay after each) and then exits the loop, resolving with
`undefined`. The 429 attempts consumed the attempt budget — retrying on 429
did not continue past `maxRetries + 1` attempts, contradicting "does not count
toward the maxRetries budget, so retrying on 429 can continue indefinitely". -/
theorem c1_429_budget_counterexample :
    retryFetch (fun _ => AttemptResult.resp 429 (some 2)) 1 500 =
      ([2000, 2000], RFOutcome.exhausted) := rfl

/-- Claim C1, amended: an attempt that returns HTTP 429 with a `Retry-After`
header of `n` seconds is followed by a delay of `n * 1000` milliseconds before
retrying (and by `backoff * 2 ^ attempt` when the header is absent); however,
a 429 attempt does count toward the loop's attempt budget: the `continue`
still runs the loop update, so when every attempt returns 429 the loop
performs exactly `maxRetries + 1` attempts, each followed by its computed
delay, and then exits without returning a response. -/
theorem c1_rate_limit_delay_amended (attempts : Nat → AttemptResult)
    (maxRetries backoff : Nat) (ra : Nat → Option Nat) :
    (∀ n, attempts 0 = AttemptResult.resp 429 (some n) →
      (retryFetch attempts maxRetries backoff).1.head? = some (n * 1000)) ∧
    (attempts 0 = AttemptResult.resp 429 none →
      (retryFetch attempts maxRetries backoff).1.head? =
        some (backoff * 2 ^ 0)) ∧
    ((∀ k, attempts k = AttemptResult.resp 429 (ra k)) →
      retryFetch attempts maxRetries backoff =
        ((List.range (maxRetries + 1)).map
          (fun k => match ra k with
            | some n => n * 1000
            | none => backoff * 2 ^ k),
         RFOutcome.exhausted)) := by
  refine ⟨?_, ?_, ?_⟩
  · intro n h0
    rw [retryFetch, retryFetchLoop, h0]
    simp
  · intro h0
    rw [retryFetch, retryFetchLoop, h0]
    simp
  · intro h
    rw [retryFetch, retryFetchLoop_all_429 attempts maxRetries backoff ra h,
      List.range_eq_range']

/-- Witness for the amended C1 theorem at concrete inputs: a `Retry-After: 2`
header yields a first delay of 2000 ms, and an all-429 run with no header and
`maxRetries = 1` performs exactly two attempts with backoff delays 500 and
1000 ms before resolving undefined. -/
theorem c1_rate_limit_delay_amended_witness :
    (retryFetch (fun _ => AttemptResult.resp 429 (some 2)) 3 500).1.head? =
      some 2000 ∧
    retryFetch (fun _ => AttemptResult.resp 429 none) 1 500 =
      ([500, 1000], RFOutcome.exhausted) := by
  constructor
  · exact (c1_rate_limit_delay_amended (fun _ => AttemptResult.resp 429 (some 2))
      3 500 (fun _ => some 2)).1 2 rfl
  · have h := (c1_rate_limit_delay_amended (fun _ => AttemptResult.resp 429 none)
      1 500 (fun _ => none)).2.2 (fun _ => rfl)
    rw [h]
    rfl

/-- Claim C5: with `maxRetries = 3`, two failures then a non-429 response make
`retryFetch` return that response after sleeping `backoff * 2 ^ 0` and
`backoff * 2 ^ 1`; in general each retried failed attempt `k` is followed by a
delay of `backoff * 2 ^ k`, and when the retry budget is exhausted the last
attempt's error is thrown to the caller. -/
theorem c5_backoff_and_error_propagation (attempts : Nat → AttemptResult)
    (backoff : Nat) (es : Nat → String) :
    (∀ e0 e1 status ra,
      attempts 0 = AttemptResult.fail e0 →
      attempts 1 = AttemptResult.fail e1 →
      attempts 2 = AttemptResult.resp status ra →
      status ≠ 429 →
      retryFetch attempts 3 backoff =
        ([backoff * 2 ^ 0, backoff * 2 ^ 1],
         RFOutcome.returned status ra)) ∧
    (∀ maxRetries,
      (∀ k, k ≤ maxRetries → attempts k = AttemptResult.fail (es k)) →
      retryFetch attempts maxRetries backoff =
        ((List.range maxRetries).map (fun k => backoff * 2 ^ k),
         RFOutcome.threw (es maxRetries))) := by
  constructor
  · intro e0 e1 status ra h0 h1 h2 hne
    rw [retryFetch]
    rw [retryFetchLoop, h0]
    simp only [show (0 : Nat) ≠ 3 by omega, if_neg, reduceIte]
    rw [retryFetchLoop, h1]
    simp only [show (1 : Nat) ≠ 3 by omega, if_neg, reduceIte]
    rw [retryFetchLoop, h2]
    simp [hne]
  · intro maxRetries h
    have hl := retryFetchLoop_all_fail attempts maxRetries backoff es h
      maxRetries 0 (by omega)
    rw [retryFetch, hl, List.range_eq_range']

/-- Witness for C5 at concrete inputs: two timeouts then a 200 response with
`backoff = 500` yields the response after delays 500 and 1000 ms; an all-fail
run with `maxRetries = 2`, `backoff = 100` throws the last error after delays
100 and 200 ms. -/
theorem c5_backoff_and_error_propagation_witness :
    retryFetch
      (fun k => if k = 0 then AttemptResult.fail "timeout 0"
        else if k = 1 then AttemptResult.fail "timeout 1"
        else AttemptResult.resp 200 none) 3 500 =
      ([500, 1000], RFOutcome.returned 200 none) ∧
    retryFetch (fun k => AttemptResult.fail (toString k)) 2 100 =
      ([100, 200], RFOutcome.threw "2") := by
  constructor
  · have h := (c5_backoff_and_error_propagation
      (fun k => if k = 0 then AttemptResult.fail "timeout 0"
        else if k = 1 then AttemptResult.fail "timeout 1"
        else AttemptResult.resp 200 none) 500 (fun _ => "")).1
      "timeout 0" "timeout 1" 200 none rfl rfl rfl (by omega)
    rw [h]
    rfl
  · have h := (c5_backoff_and_error_propagation
      (fun k => AttemptResult.fail (toString k)) 100 (fun k => toString k)).2
      2 (fun k _ => rfl)
    rw [h]
    rfl

/-- Claim C9: if every attempt within the budget returns HTTP 429, the loop
performs exactly `maxRetries + 1` attempts, each followed by its computed
delay, and then exits without returning a response and without throwing: the
call resolves with `undefined` (modelled by `RFOutcome.exhausted`) rather than
a `Response` value. -/
theorem c9_all_429_resolves_undefined (attempts : Nat → AttemptResult)
    (maxRetries backoff : Nat) (ra : Nat → Option Nat)
    (h : ∀ k, attempts k = AttemptResult.resp 429 (ra k)) :
    retryFetch attempts maxRetries backoff =
      ((List.range (maxRetries + 1)).map
        (fun k => match ra k with
          | some n => n * 1000
          | none => backoff * 2 ^ k),
       RFOutcome.exhausted) := by
  rw [retryFetch, retryFetchLoop_all_429 attempts maxRetries backoff ra h,
    List.range_eq_range']

/-- Witness for C9: with `maxRetries = 2` and every attempt answering 429 with
`Retry-After: 3`, exactly three attempts happen, each followed by a 3000 ms
delay, and the call resolves undefined. -/
theorem c9_all_429_resolves_undefined_witness :
    retryFetch (fun _ => AttemptResult.resp 429 (some 3)) 2 100 =
      ([3000, 3000, 3000], RFOutcome.exhausted) := by
  have h := c9_all_429_resolves_undefined (fun _ => AttemptResult.resp 429 (some 3))
    2 100 (fun _ => some 3) (fun _ => rfl)
  rw [h]
  rfl

/-! ### Theorems: relocation and tree building (claims C2, C8) -/

/-- The sequentially awaited child moves are the per-child recursive move
traces, concatenated in the children's order. -/
theorem moveChildrenCalls_eq_flatten (cs : List DTree) (destCollectionId p : String) :
    moveChildrenCalls cs destCollectionId p =
      (cs.map (fun c => moveDocumentRecursively c destCollectionId p)).flatten := by
  induction cs with
  | nil => rw [moveChildrenCalls]; rfl
  | cons c rest ih =>
    rw [moveChildrenCalls, ih]
    simp

/-- Claim C2: `moveDocumentRecursively(api, doc, X, P)` first issues the remote
move call `(doc.id, X, P)`, then, for each child in order, depth-first and
sequentially, the child subtree's calls with destination parent `doc.id` (not
`P`); for `B` with single child `D` this is exactly the two calls
`(B, X, P)` then `(D, X, B)`. -/
theorem c2_move_recursively_reparents_to_moved_doc :
    (∀ i cs destCollectionId destParentId,
      moveDocumentRecursively (DTree.node i cs) destCollectionId destParentId =
        (i, destCollectionId, destParentId) ::
          (cs.map (fun c => moveDocumentRecursively c destCollectionId i)).flatten) ∧
    moveDocumentRecursively (DTree.node "B" [DTree.node "D" []]) "X" "P" =
      [("B", "X", "P"), ("D", "X", "B")] := by
  constructor
  · intro i cs destCollectionId destParentId
    rw [moveDocumentRecursively, moveChildrenCalls_eq_flatten]
  · rw [moveDocumentRecursively]
    rw [moveChildrenCalls, moveDocumentRecursively, moveChildrenCalls, moveChildrenCalls]
    rfl

/-- Claim C8: a document whose `parentDocumentId` is not the id of any document
in the flat list is placed among the returned roots by `buildTree`; the
function is total (it never raises), so in particular this case raises no
error. -/
theorem c8_orphan_parent_becomes_root (docs : List FlatDoc) (d : FlatDoc)
    (hmem : d ∈ docs)
    (horphan : ∀ s, d.parentDocumentId = some s → hasId docs s = false) :
    d ∈ buildTreeRoots docs := by
  unfold buildTreeRoots
  refine List.mem_filter.mpr ⟨hmem, ?_⟩
  cases hpd : d.parentDocumentId with
  | none => simp [isAttached, hpd]
  | some s => simp [isAttached, hpd, horphan s hpd]

/-- Witness for C8: a doc whose parent id `"zzz"` appears nowhere in the list
is among the roots `buildTree` returns. -/
theorem c8_orphan_parent_becomes_root_witness :
    FlatDoc.mk "a" (some "zzz") ∈
      buildTreeRoots [FlatDoc.mk "a" (some "zzz"), FlatDoc.mk "b" none] := by
  apply c8_orphan_parent_becomes_root
  · decide
  · intro s hs
    have h : "zzz" = s := by simpa using hs
    subst h
    decide

/-! ### Theorems: response handling of the API methods (claims C7, C10) -/

/-- Claim C7: each mutating operation (`createCollection`, `createDocument`,
`moveDocument`) fails with a typed `OutlineApiError` carrying the HTTP status
and the `parseApiError` message exactly when the response is not ok, and
returns the parsed response data otherwise; and `parseApiError` serializes a
JSON body verbatim, falls back to the plain text body when non-JSON, and to
the operation's default message when the body is unusable or empty. -/
theorem c7_mutating_ops_raise_typed_errors (r : Response) :
    (r.ok = false →
      createCollection r = Except.error (OutlineApiError.mk "OutlineApiError"
        (parseApiError r "Collection creation failed") r.status) ∧
      createDocument r = Except.error (OutlineApiError.mk "OutlineApiError"
        (parseApiError r "Document creation failed") r.status) ∧
      moveDocument r = Except.error (OutlineApiError.mk "OutlineApiError"
        (parseApiError r "Moving document failed") r.status)) ∧
    (r.ok = true →
      createCollection r = Except.ok r.data ∧
      createDocument r = Except.ok r.data ∧
      moveDocument r = Except.ok r.data) ∧
    (∀ d s, r.contentTypeJson = true → r.jsonString = some s →
      parseApiError r d =
        "Error (Status: " ++ toString r.status ++ ")" ++ " - " ++ s) ∧
    (∀ d, r.contentTypeJson = true → r.jsonString = none →
      parseApiError r d =
        "Error (Status: " ++ toString r.status ++ ")" ++ " - " ++ d) ∧
    (∀ d, r.contentTypeJson = false → r.text ≠ "" →
      parseApiError r d =
        "Error (Status: " ++ toString r.status ++ ")" ++ " - " ++ r.text) ∧
    (∀ d, r.contentTypeJson = false → r.text = "" →
      parseApiError r d =
        "Error (Status: " ++ toString r.status ++ ")" ++ " - " ++ d) := by
  refine ⟨?_, ?_, ?_, ?_, ?_, ?_⟩
  · intro hok
    refine ⟨?_, ?_, ?_⟩ <;> simp [createCollection, createDocument, moveDocument, hok]
  · intro hok
    refine ⟨?_, ?_, ?_⟩ <;> simp [createCollection, createDocument, moveDocument, hok]
  · intro d s hct hjs
    simp [parseApiError, hct, hjs]
  · intro d hct hjs
    simp [parseApiError, hct, hjs]
  · intro d hct htext
    simp [parseApiError, hct, htext]
  · intro d hct htext
    simp [parseApiError, hct, htext]

/-- Witness for C7: a failed JSON-bodied response produces the typed error
with the serialized body, and a successful response returns the parsed data. -/
theorem c7_mutating_ops_raise_typed_errors_witness :
    createCollection (Response.mk false 500 true (some "[1]") "" "zzz") =
      Except.error (OutlineApiError.mk "OutlineApiError"
        "Error (Status: 500) - [1]" 500) ∧
    moveDocument (Response.mk false 403 false none "" "zzz") =
      Except.error (OutlineApiError.mk "OutlineApiError"
        "Error (Status: 403) - Moving document failed" 403) ∧
    createDocument (Response.mk true 200 true (some "[1]") "" "payload") =
      Except.ok "payload" := by
  refine ⟨?_, ?_, ?_⟩
  · have h := (c7_mutating_ops_raise_typed_errors
      (Response.mk false 500 true (some "[1]") "" "zzz")).1 rfl
    rw [h.1]
    rfl
  · have h := (c7_mutating_ops_raise_typed_errors
      (Response.mk false 403 false none "" "zzz")).1 rfl
    rw [h.2.2]
    rfl
  · exact ((c7_mutating_ops_raise_typed_errors
      (Response.mk true 200 true (some "[1]") "" "payload")).2.1 rfl).2.1

/-- Claim C10: `getDocument` returns the absent-value sentinel `null`
(modelled by `none`) for every response whose `ok` flag is false — whatever
the status, 404, 500 or an authorization failure — without raising, and
returns the parsed document data only for a successful response. -/
theorem c10_getDocument_null_on_any_failure (r : Response) :
    (r.ok = false → getDocument r = none) ∧
    (r.ok = true → getDocument r = some r.data) := by
  constructor <;> intro h <;> simp [getDocument, h]

/-- Witness for C10: a 500 response yields `none`; an ok response yields the
data. -/
theorem c10_getDocument_null_on_any_failure_witness :
    getDocument (Response.mk false 500 false none "Internal Server Error" "d") =
      none ∧
    getDocument (Response.mk true 200 true (some "[1]") "" "doc") = some "doc" :=
  ⟨(c10_getDocument_null_on_any_failure
      (Response.mk false 500 false none "Internal Server Error" "d")).1 rfl,
   (c10_getDocument_null_on_any_failure
      (Response.mk true 200 true (some "[1]") "" "doc")).2 rfl⟩

/-! ### Theorems: pagination (claim C4) -/

/-- Loop invariant for `listCollections`: if the pages at
`offset, offset + 25, ..., offset + 25 * (N - 1)` are arrays of length at
least 25, and the page at `offset + 25 * N` is short or not an array, then
with at least `N + 1` iterations of fuel the loop returns the accumulator
followed by the concatenation of the `N + 1` pages received, in order. -/
theorem listCollectionsLoop_concat (pages : Nat → Option (List α)) :
    ∀ N offset acc fuel,
      (∀ j, j < N → (pages (offset + 25 * j)).isSome = true ∧
        25 ≤ ((pages (offset + 25 * j)).getD []).length) →
      ((pages (offset + 25 * N)).getD []).length < 25 →
      N + 1 ≤ fuel →
      listCollectionsLoop pages fuel offset acc =
        some (acc ++ pagesConcat pages offset (N + 1)) := by
  intro N
  induction N with
  | zero =>
    intro offset acc fuel hfull hstop hfuel
    match fuel, hfuel with
    | f + 1, _ =>
      rw [listCollectionsLoop]
      cases hp : pages offset with
      | none => simp [pagesConcat, hp]
      | some p =>
        have hlen : p.length < 25 := by simpa [hp] using hstop
        simp [pagesConcat, hp, hlen]
  | succ M ih =>
    intro offset acc fuel hfull hstop hfuel
    match fuel, hfuel with
    | f + 1, hf =>
      obtain ⟨hs, hlen⟩ := hfull 0 (by omega)
      simp only [Nat.mul_zero, Nat.add_zero] at hs hlen
      obtain ⟨p, hp⟩ := Option.isSome_iff_exists.mp hs
      rw [hp] at hlen
      simp only [Option.getD_some] at hlen
      rw [listCollectionsLoop, hp]
      have hnotlt : ¬ p.length < 25 := by omega
      simp only [if_neg hnotlt]
      have harith : ∀ j : Nat, offset + 25 * (j + 1) = offset + 25 + 25 * j := by
        intro j; ring
      have hfull' : ∀ j, j < M → (pages (offset + 25 + 25 * j)).isSome = true ∧
          25 ≤ ((pages (offset + 25 + 25 * j)).getD []).length := by
        intro j hj
        have := hfull (j + 1) (by omega)
        rwa [harith j] at this
      have hstop' : ((pages (offset + 25 + 25 * M)).getD []).length < 25 := by
        rw [← harith M]; exact hstop
      have := ih (offset + 25) (acc ++ p) f hfull' hstop' (by omega)
      rw [this]
      rw [show pagesConcat pages offset (M + 1 + 1) =
        (pages offset).getD [] ++ pagesConcat pages (offset + 25) (M + 1) from rfl]
      rw [hp]
      simp

/-- Claim C4: for every paginated listing in which the page at index `N`
(offset `1 + 25 * N`) is shorter than the page size or not an array, while the
earlier pages are full arrays, `listCollections` terminates (given at least
`N + 1` iterations of fuel) and returns the concatenation of all pages
received in order, having incremented the offset by the page size 25 each
round and stopped exactly at that first short or non-array page. -/
theorem c4_pagination_terminates_with_concatenation
    (pages : Nat → Option (List α)) (N : Nat)
    (hfull : ∀ j, j < N → (pages (1 + 25 * j)).isSome = true ∧
      25 ≤ ((pages (1 + 25 * j)).getD []).length)
    (hstop : ((pages (1 + 25 * N)).getD []).length < 25) :
    ∀ fuel, N + 1 ≤ fuel →
      listCollections pages fuel = some (pagesConcat pages 1 (N + 1)) := by
  intro fuel hfuel
  have h := listCollectionsLoop_concat pages N 1 [] fuel hfull hstop hfuel
  rw [listCollections, h]
  simp

/-- Witness for C4: a full first page (25 items) at offset 1 and a short
second page (2 items) at offset 26 make `listCollections` return the 27 items
in order. -/
theorem c4_pagination_witness :
    listCollections
      (fun o => if o = 1 then some (List.range 25)
        else if o = 26 then some [100, 101] else none) 2 =
      some (List.range 25 ++ [100, 101]) := by
  have h := c4_pagination_terminates_with_concatenation
    (fun o => if o = 1 then some (List.range 25)
      else if o = 26 then some [100, 101] else none) 1
    (by decide) (by decide) 2 (by decide)
  rw [h]
  rfl

/-! ### Theorems: top-level selection filter (claim C6) -/

/-- Induction principle for document forests: to prove a property of every
forest it suffices to prove it for `[]` and, for a head node, from the
property of its children and of the remaining siblings. -/
theorem forestInd (P : List DTree → Prop) (hnil : P [])
    (hcons : ∀ i cs rest, P cs → P rest → P (DTree.node i cs :: rest)) :
    ∀ F, P F
  | [] => hnil
  | DTree.node i cs :: rest =>
    hcons i cs rest (forestInd P hnil hcons cs) (forestInd P hnil hcons rest)

/-- Every node recorded by `preorderWithAncestors` keeps the ambient ancestors
in its ancestor list. -/
theorem mem_preorderWithAncestors_anc (x : String) :
    ∀ (F : List DTree) (anc : List String), x ∈ anc →
      ∀ p ∈ preorderWithAncestors F anc, x ∈ p.2 := by
  intro F
  induction F using forestInd with
  | hnil =>
    intro anc hx p hp
    simp [preorderWithAncestors] at hp
  | hcons i cs rest ihc ihr =>
    intro anc hx p hp
    rw [preorderWithAncestors] at hp
    rcases List.mem_cons.mp hp with h | h
    · subst h; exact hx
    · rcases List.mem_append.mp h with h | h
      · exact ihc (i :: anc) (List.mem_cons_of_mem _ hx) p h
      · exact ihr anc hx p h

/-- Generalized form of the C6 equivalence: under any ambient ancestor list
whose ids are all unselected, `filterTopLevelSelected` computes the preorder
list of selected nodes with no selected ancestor. -/
theorem filterTopLevelSelected_eq_spec_aux (sel : List String) :
    ∀ (F : List DTree) (anc : List String),
      (∀ a ∈ anc, sel.contains a = false) →
      filterTopLevelSelected F sel =
        ((preorderWithAncestors F anc).filter
          (fun p => sel.contains p.1.id && p.2.all (fun a => !sel.contains a))).map
          Prod.fst := by
  intro F
  induction F using forestInd with
  | hnil =>
    intro anc h
    rw [filterTopLevelSelected, preorderWithAncestors]
    rfl
  | hcons i cs rest ihc ihr =>
    intro anc h
    have hanc : anc.all (fun a => !sel.contains a) = true := by
      rw [List.all_eq_true]
      intro a ha
      rw [h a ha]
      rfl
    rw [preorderWithAncestors, List.filter_cons, List.filter_append]
    by_cases hsel : sel.contains i
    · have hpred : (sel.contains (DTree.node i cs, anc).1.id &&
          (DTree.node i cs, anc).2.all (fun a => !sel.contains a)) = true := by
        show (sel.contains i && anc.all (fun a => !sel.contains a)) = true
        rw [hsel, hanc]
        rfl
      rw [if_pos hpred]
      have hcs : (preorderWithAncestors cs (i :: anc)).filter
          (fun p => sel.contains p.1.id && p.2.all (fun a => !sel.contains a)) =
          [] := by
        rw [List.filter_eq_nil_iff]
        intro p hp hcond
        have hi : i ∈ p.2 :=
          mem_preorderWithAncestors_anc i cs (i :: anc) (List.mem_cons_self i anc) p hp
        simp only [Bool.and_eq_true] at hcond
        have hfalse := (List.all_eq_true.mp hcond.2) i hi
        rw [hsel] at hfalse
        exact Bool.false_ne_true hfalse
      rw [hcs, List.nil_append, List.map_cons]
      rw [filterTopLevelSelected, if_pos hsel, ihr anc h]
    · have hsel' : sel.contains i = false := Bool.eq_false_iff.mpr hsel
      have hpred : ¬ (sel.contains (DTree.node i cs, anc).1.id &&
          (DTree.node i cs, anc).2.all (fun a => !sel.contains a)) = true := by
        show ¬ (sel.contains i && anc.all (fun a => !sel.contains a)) = true
        rw [hsel']
        simp
      rw [if_neg hpred, List.map_append]
      have hconsanc : ∀ a ∈ i :: anc, sel.contains a = false := by
        intro a ha
        rcases List.mem_cons.mp ha with h1 | h1
        · subst h1
          exact hsel'
        · exact h a h1
      rw [← ihc (i :: anc) hconsanc, ← ihr anc h]
      rw [filterTopLevelSelected, if_neg hsel]
      by_cases hlen : cs.length > 0
      · rw [if_pos hlen]
      · rw [if_neg hlen]
        have hnil : cs = [] := by
          cases cs with
          | nil => rfl
          | cons a l => simp at hlen
        subst hnil
        rw [filterTopLevelSelected, List.nil_append]

/-- Claim C6: `filterTopLevelSelected` returns, in preorder, exactly the
selected nodes that have no selected ancestor — a selected node is included
with its whole subtree (its own selected descendants are excluded), and a
selected node below unselected ancestors is still found. In particular, on
the tree `A→[B,C]`, `B→[D]`, selecting `B` yields `[B]` (D excluded) and
selecting only `D` yields `[D]`. -/
theorem c6_filter_top_level_selected :
    (∀ (F : List DTree) (sel : List String),
      filterTopLevelSelected F sel = topLevelSelectedSpec F sel) ∧
    filterTopLevelSelected
      [DTree.node "A" [DTree.node "B" [DTree.node "D" []], DTree.node "C" []]]
      ["B"] = [DTree.node "B" [DTree.node "D" []]] ∧
    filterTopLevelSelected
      [DTree.node "A" [DTree.node "B" [DTree.node "D" []], DTree.node "C" []]]
      ["D"] = [DTree.node "D" []] := by
  have hmain : ∀ (F : List DTree) (sel : List String),
      filterTopLevelSelected F sel = topLevelSelectedSpec F sel := by
    intro F sel
    rw [topLevelSelectedSpec]
    exact filterTopLevelSelected_eq_spec_aux sel F [] (by intro a ha; simp at ha)
  refine ⟨hmain, ?_, ?_⟩
  · simp [filterTopLevelSelected]
  · simp [filterTopLevelSelected]

/-! ### Theorems: flatten / buildTree round-trip (claim C3) -/

/-- Unfolding of `preIdsF` on a cons cell. -/
theorem preIdsF_cons_eq (i : String) (cs rest : List DTree) :
    preIdsF (DTree.node i cs :: rest) = i :: (preIdsF cs ++ preIdsF rest) := by
  rw [preIdsF]

/-- The head id is among the preorder ids. -/
theorem mem_preIdsF_head (i : String) (cs rest : List DTree) :
    i ∈ preIdsF (DTree.node i cs :: rest) := by
  rw [preIdsF_cons_eq]
  exact List.mem_cons_self i _

/-- Ids of the head's children are among the preorder ids. -/
theorem mem_preIdsF_left {x : String} (i : String) (cs rest : List DTree)
    (h : x ∈ preIdsF cs) : x ∈ preIdsF (DTree.node i cs :: rest) := by
  rw [preIdsF_cons_eq]
  exact List.mem_cons_of_mem _ (List.mem_append_left _ h)

/-- Ids of the remaining siblings are among the preorder ids. -/
theorem mem_preIdsF_right {x : String} (i : String) (cs rest : List DTree)
    (h : x ∈ preIdsF rest) : x ∈ preIdsF (DTree.node i cs :: rest) := by
  rw [preIdsF_cons_eq]
  exact List.mem_cons_of_mem _ (List.mem_append_right _ h)

/-- On a nested response built from a tree (every node's own
`parentDocumentId` is absent), `flattenApiDocs` assigns each node exactly its
tree parent's id: it agrees with the specified preorder flattening, provided
the ids are nonempty strings and the ambient parent id (if any) is a nonempty
string. -/
theorem flattenApiDocs_toNestedF :
    ∀ (F : List DTree) (p : Option String),
      (∀ i ∈ preIdsF F, i ≠ "") →
      (p = none ∨ ∃ s, p = some s ∧ s ≠ "") →
      flattenApiDocs (toNestedF F) p = flatSpec F p := by
  intro F
  induction F using forestInd with
  | hnil =>
    intro p _ _
    rw [toNestedF, flattenApiDocs, flatSpec]
  | hcons i cs rest ihc ihr =>
    intro p hne hp
    have hne_cs : ∀ x ∈ preIdsF cs, x ≠ "" :=
      fun x hx => hne x (mem_preIdsF_left i cs rest hx)
    have hne_rest : ∀ x ∈ preIdsF rest, x ≠ "" :=
      fun x hx => hne x (mem_preIdsF_right i cs rest hx)
    have hi : i ≠ "" := hne i (mem_preIdsF_head i cs rest)
    rw [toNestedF, toNested, flattenApiDocs, flatSpec]
    have hpid : (if truthy p && !truthy none then p else none) = p := by
      rcases hp with h | ⟨s, hs, hsne⟩
      · subst h; rfl
      · subst hs
        have ht : truthy (some s) = true := by simp [truthy, hsne]
        rw [ht]
        rfl
    rw [hpid, ihc (some i) hne_cs (Or.inr ⟨i, rfl, hi⟩), ihr p hne_rest hp]

/-- The flattened forest lists exactly the preorder ids, whatever parent id is
passed down. -/
theorem flatSpec_map_id :
    ∀ (F : List DTree) (p : Option String),
      (flatSpec F p).map FlatDoc.id = preIdsF F := by
  intro F
  induction F using forestInd with
  | hnil => intro p; rw [flatSpec, preIdsF]; rfl
  | hcons i cs rest ihc ihr =>
    intro p
    rw [flatSpec, preIdsF_cons_eq, List.map_cons, List.map_append, ihc, ihr]

/-- In the flattened form of a forest containing no node named `q`, the
entries whose parent id is `q` are exactly the forest's roots when the ambient
parent id is `q`, and none otherwise. -/
theorem flatSpec_filter_parent_not_mem :
    ∀ (F : List DTree) (p : Option String) (q : String), q ∉ preIdsF F →
      (flatSpec F p).filter (fun d => d.parentDocumentId == some q) =
        if p = some q then F.map (fun t => FlatDoc.mk t.id p) else [] := by
  intro F
  induction F using forestInd with
  | hnil =>
    intro p q _
    rw [flatSpec, List.filter_nil]
    by_cases hp : p = some q
    · rw [if_pos hp]; rfl
    · rw [if_neg hp]
  | hcons i cs rest ihc ihr =>
    intro p q hq
    have hqi : q ≠ i := by
      intro hcontra
      exact hq (hcontra ▸ mem_preIdsF_head i cs rest)
    have hqcs : q ∉ preIdsF cs := fun hx => hq (mem_preIdsF_left i cs rest hx)
    have hqrest : q ∉ preIdsF rest := fun hx => hq (mem_preIdsF_right i cs rest hx)
    rw [flatSpec, List.filter_cons, List.filter_append]
    rw [ihc (some i) q hqcs,
      if_neg (fun hcontra => hqi (Option.some.inj hcontra).symm), List.nil_append]
    rw [ihr p q hqrest]
    by_cases hp : p = some q
    · subst hp
      have hpred : ((FlatDoc.mk i (some q)).parentDocumentId == some q) = true := by
        show ((some q : Option String) == some q) = true
        exact beq_self_eq_true _
      rw [if_pos hpred, if_pos rfl, if_pos rfl, List.map_cons]
      rfl
    · have hpred : ¬ ((FlatDoc.mk i p).parentDocumentId == some q) = true := by
        show ¬ (p == some q) = true
        intro hcontra
        exact hp (eq_of_beq hcontra)
      rw [if_neg hpred, if_neg hp, if_neg hp]

/-- A name absent from the preorder ids is not found. -/
theorem findNode_eq_none :
    ∀ (F : List DTree) (q : String), q ∉ preIdsF F → findNode q F = none := by
  intro F
  induction F using forestInd with
  | hnil => intro q _; rw [findNode]
  | hcons i cs rest ihc ihr =>
    intro q hq
    have hqi : i ≠ q := by
      intro hcontra
      exact hq (hcontra ▸ mem_preIdsF_head i cs rest)
    have hqcs : q ∉ preIdsF cs := fun hx => hq (mem_preIdsF_left i cs rest hx)
    have hqrest : q ∉ preIdsF rest := fun hx => hq (mem_preIdsF_right i cs rest hx)
    rw [findNode, if_neg hqi, ihc q hqcs]
    exact ihr q hqrest

/-- A name present among the preorder ids is found. -/
theorem findNode_ne_none :
    ∀ (F : List DTree) (q : String), q ∈ preIdsF F → findNode q F ≠ none := by
  intro F
  induction F using forestInd with
  | hnil =>
    intro q hq
    rw [preIdsF] at hq
    simp at hq
  | hcons i cs rest ihc ihr =>
    intro q hq
    rw [findNode]
    by_cases hiq : i = q
    · rw [if_pos hiq]; simp
    · rw [if_neg hiq]
      rw [preIdsF_cons_eq] at hq
      rcases List.mem_cons.mp hq with h1 | h1
      · exact absurd h1.symm hiq
      · rcases List.mem_append.mp h1 with h2 | h2
        · cases hfind : findNode q cs with
          | none => exact absurd hfind (ihc q h2)
          | some t => simp
        · cases hfind : findNode q cs with
          | none => exact ihr q h2
          | some t => simp

/-- Computation of `childrenOfId` at the head node. -/
theorem childrenOfId_cons_self (i : String) (cs rest : List DTree) :
    childrenOfId i (DTree.node i cs :: rest) = cs := by
  rw [childrenOfId, findNode, if_pos rfl]
  rfl

/-- Function `childrenOfId` descends into the head's children when the name occurs
there. -/
theorem childrenOfId_cons_of_mem_left (i q : String) (cs rest : List DTree)
    (hne : i ≠ q) (hmem : q ∈ preIdsF cs) :
    childrenOfId q (DTree.node i cs :: rest) = childrenOfId q cs := by
  rw [childrenOfId, findNode, if_neg hne]
  cases hfind : findNode q cs with
  | none => exact absurd hfind (findNode_ne_none cs q hmem)
  | some t =>
    rw [childrenOfId, hfind]

/-- Function `childrenOfId` skips a head subtree not containing the name. -/
theorem childrenOfId_cons_of_not_mem_left (i q : String) (cs rest : List DTree)
    (hne : i ≠ q) (hnot : q ∉ preIdsF cs) :
    childrenOfId q (DTree.node i cs :: rest) = childrenOfId q rest := by
  rw [childrenOfId, findNode, if_neg hne, findNode_eq_none cs q hnot]
  rfl

/-- In the flattened form of a forest with distinct ids containing a node
named `q` (and with an ambient parent id other than `q`), the entries whose
parent id is `q` are exactly the children of the node named `q`, in their
original order. -/
theorem flatSpec_filter_parent_mem :
    ∀ (F : List DTree) (p : Option String) (q : String),
      (preIdsF F).Nodup → q ∈ preIdsF F → p ≠ some q →
      (flatSpec F p).filter (fun d => d.parentDocumentId == some q) =
        (childrenOfId q F).map (fun t => FlatDoc.mk t.id (some q)) := by
  intro F
  induction F using forestInd with
  | hnil =>
    intro p q _ hq _
    rw [preIdsF] at hq
    simp at hq
  | hcons i cs rest ihc ihr =>
    intro p q hnd hq hp
    rw [preIdsF_cons_eq] at hnd hq
    obtain ⟨hi_notmem, hnd_app⟩ := List.nodup_cons.mp hnd
    rw [List.nodup_append] at hnd_app
    obtain ⟨hndcs, hndrest, hdisj⟩ := hnd_app
    rw [flatSpec, List.filter_cons, List.filter_append]
    have hpred : ¬ ((FlatDoc.mk i p).parentDocumentId == some q) = true := by
      show ¬ (p == some q) = true
      intro hcontra
      exact hp (eq_of_beq hcontra)
    rw [if_neg hpred]
    rcases List.mem_cons.mp hq with hqi | hqmem
    · subst hqi
      have hqcs : q ∉ preIdsF cs := fun hx => hi_notmem (List.mem_append_left _ hx)
      have hqrest : q ∉ preIdsF rest := fun hx => hi_notmem (List.mem_append_right _ hx)
      rw [flatSpec_filter_parent_not_mem cs (some q) q hqcs, if_pos rfl]
      rw [flatSpec_filter_parent_not_mem rest p q hqrest, if_neg hp, List.append_nil]
      rw [childrenOfId_cons_self]
    · rcases List.mem_append.mp hqmem with hqcs | hqrest
      · have hiq : i ≠ q := by
          intro hcontra
          subst hcontra
          exact hi_notmem (List.mem_append_left _ hqcs)
        have hqrest : q ∉ preIdsF rest := fun hx => hdisj hqcs hx
        rw [ihc (some i) q hndcs hqcs
          (fun hcontra => hiq (Option.some.inj hcontra))]
        rw [flatSpec_filter_parent_not_mem rest p q hqrest, if_neg hp, List.append_nil]
        rw [childrenOfId_cons_of_mem_left i q cs rest hiq hqcs]
      · have hiq : i ≠ q := by
          intro hcontra
          subst hcontra
          exact hi_notmem (List.mem_append_right _ hqrest)
        have hqcs : q ∉ preIdsF cs := fun hx => hdisj hx hqrest
        rw [flatSpec_filter_parent_not_mem cs (some i) q hqcs,
          if_neg (fun hcontra => hiq (Option.some.inj hcontra)), List.nil_append]
        rw [ihr p q hndrest hqrest hp]
        rw [childrenOfId_cons_of_not_mem_left i q cs rest hiq hqcs]

/-- Predicate `hasId` is membership of the id among the docs' ids. -/
theorem hasId_iff_mem_map_id (docs : List FlatDoc) (s : String) :
    hasId docs s = true ↔ s ∈ docs.map FlatDoc.id := by
  rw [hasId, List.any_eq_true]
  constructor
  · rintro ⟨d, hd, hbeq⟩
    exact List.mem_map.mpr ⟨d, hd, eq_of_beq hbeq⟩
  · intro h
    obtain ⟨d, hd, heq⟩ := List.mem_map.mp h
    exact ⟨d, hd, by rw [heq]; exact beq_self_eq_true _⟩

/-- No entry of a subtree flattened under a present, nonempty parent id
survives the root filter: each such entry's parent id is a nonempty id present
among the docs. -/
theorem flatSpec_roots_inner (docs : List FlatDoc) :
    ∀ (G : List DTree) (s : String), s ≠ "" → hasId docs s = true →
      (∀ i ∈ preIdsF G, i ≠ "" ∧ hasId docs i = true) →
      (flatSpec G (some s)).filter (fun d => !isAttached docs d) = [] := by
  intro G
  induction G using forestInd with
  | hnil => intro s _ _ _; rw [flatSpec]; rfl
  | hcons i cs rest ihc ihr =>
    intro s hs hhas hids
    rw [flatSpec, List.filter_cons, List.filter_append]
    have hatt : isAttached docs (FlatDoc.mk i (some s)) = true := by
      show (decide (s ≠ "") && hasId docs s) = true
      simp [hs, hhas]
    have hpred : ¬ (!isAttached docs (FlatDoc.mk i (some s))) = true := by
      rw [hatt]
      simp
    rw [if_neg hpred]
    have hhead := hids i (mem_preIdsF_head i cs rest)
    rw [ihc i hhead.1 hhead.2 (fun x hx => hids x (mem_preIdsF_left i cs rest hx)),
      List.nil_append]
    exact ihr s hs hhas (fun x hx => hids x (mem_preIdsF_right i cs rest hx))

/-- The root filter over the flattened forest keeps exactly the forest's
roots, in order, each carrying no parent id. -/
theorem flatSpec_roots_top (docs : List FlatDoc) :
    ∀ (F : List DTree),
      (∀ i ∈ preIdsF F, i ≠ "" ∧ hasId docs i = true) →
      (flatSpec F none).filter (fun d => !isAttached docs d) =
        F.map (fun t => FlatDoc.mk t.id none) := by
  intro F
  induction F using forestInd with
  | hnil => intro _; rw [flatSpec]; rfl
  | hcons i cs rest ihc ihr =>
    intro hids
    rw [flatSpec, List.filter_cons, List.filter_append]
    have hatt : (!isAttached docs (FlatDoc.mk i none)) = true := rfl
    rw [if_pos hatt]
    have hhead := hids i (mem_preIdsF_head i cs rest)
    rw [flatSpec_roots_inner docs cs i hhead.1 hhead.2
      (fun x hx => hids x (mem_preIdsF_left i cs rest hx)), List.nil_append]
    rw [ihr (fun x hx => hids x (mem_preIdsF_right i cs rest hx)), List.map_cons]
    rfl

/-- For a parent id that is a nonempty id present among the docs, the
`buildTree` attachment test reduces to the parent-id equality test. -/
theorem buildTreeChildren_eq_filter (docs : List FlatDoc) (q : String)
    (hq : q ≠ "") (hhas : hasId docs q = true) :
    buildTreeChildren docs q =
      docs.filter (fun d => d.parentDocumentId == some q) := by
  unfold buildTreeChildren
  apply List.filter_congr
  intro d _
  cases hpd : d.parentDocumentId with
  | none => simp [isAttached, hpd]
  | some s =>
    by_cases hsq : s = q
    · subst hsq
      simp [isAttached, hpd, hq, hhas]
    · simp [isAttached, hpd, hsq]

/-- Claim C3: flattening the nested-document form of a forest with
well-defined unique ids and rebuilding with `buildTree` yields an isomorphic
forest: the flat list carries exactly the preorder ids, the rebuilt roots are
exactly the original roots in order, and the children attached to the doc
carrying id `q` are exactly the original children of the node named `q`, in
order. -/
theorem c3_flatten_buildTree_roundtrip (F : List DTree) (h : goodIds F) :
    (flattenApiDocs (toNestedF F) none).map FlatDoc.id = preIdsF F ∧
    (buildTreeRoots (flattenApiDocs (toNestedF F) none)).map FlatDoc.id =
      F.map DTree.id ∧
    ∀ q ∈ preIdsF F,
      (buildTreeChildren (flattenApiDocs (toNestedF F) none) q).map FlatDoc.id =
        (childrenOfId q F).map DTree.id := by
  obtain ⟨hnd, hne⟩ := h
  have hflat : flattenApiDocs (toNestedF F) none = flatSpec F none :=
    flattenApiDocs_toNestedF F none hne (Or.inl rfl)
  rw [hflat]
  have hids : ∀ i ∈ preIdsF F, i ≠ "" ∧ hasId (flatSpec F none) i = true := by
    intro i hi
    refine ⟨hne i hi, ?_⟩
    rw [hasId_iff_mem_map_id, flatSpec_map_id]
    exact hi
  refine ⟨flatSpec_map_id F none, ?_, ?_⟩
  · unfold buildTreeRoots
    rw [flatSpec_roots_top (flatSpec F none) F hids, List.map_map]
    rfl
  · intro q hq
    rw [buildTreeChildren_eq_filter (flatSpec F none) q (hne q hq) (hids q hq).2]
    rw [flatSpec_filter_parent_mem F none q hnd hq (by simp), List.map_map]
    rfl

/-- Witness for C3 on the forest with root `1` and children `2`, `3`: the
rebuilt roots are `[1]` and the children attached under id `1` are
`[2, 3]`. -/
theorem c3_flatten_buildTree_roundtrip_witness :
    goodIds [DTree.node "1" [DTree.node "2" [], DTree.node "3" []]] ∧
    (buildTreeRoots (flattenApiDocs
      (toNestedF [DTree.node "1" [DTree.node "2" [], DTree.node "3" []]])
      none)).map FlatDoc.id = ["1"] ∧
    (buildTreeChildren (flattenApiDocs
      (toNestedF [DTree.node "1" [DTree.node "2" [], DTree.node "3" []]])
      none) "1").map FlatDoc.id = ["2", "3"] := by
  have hg : goodIds [DTree.node "1" [DTree.node "2" [], DTree.node "3" []]] := by
    constructor
    · simp [preIdsF]
    · intro i hi
      simp [preIdsF] at hi
      rcases hi with h | h | h <;> subst h <;> decide
  refine ⟨hg, ?_, ?_⟩
  · have h := (c3_flatten_buildTree_roundtrip _ hg).2.1
    rw [h]
    rfl
  · have h := (c3_flatten_buildTree_roundtrip _ hg).2.2 "1"
      (by rw [preIdsF_cons_eq]; exact List.mem_cons_self _ _)
    rw [h, childrenOfId_cons_self]
    rfl

end OutlineMover
